import Mathlib

/-!
Verification of the schema-less protobuf blob decoder and the string
reclamation pipeline of `src/utils/protobuf_parser.py`, plus the
localization-key classifier of `src/utils/localization_parser.py`.

Modelling conventions (shallow embedding):
* a Python `bytes` value is a `List Nat` whose elements are the byte
  values (callers only ever supply values `< 256`; the bitwise
  operations in the code are embedded verbatim with `&&&`, `|||`,
  `<<<`, `>>>` on `Nat`, which agrees with Python's unbounded ints);
* Python strings are Lean `String`s; the string-handling code in the
  repository only relies on ASCII character classes (`isdigit`,
  `isupper`, `string.punctuation`, ...), so the character-class
  predicates are embedded by their ASCII definitions, stated over
  code points (the few Unicode-only members of those classes are
  noted next to each predicate);
* Python floats produced by `struct.unpack` are modelled by the
  little-endian integer bit pattern of the 8/4 raw bytes (the claims
  under study never inspect the numeric value of a float field);
* `bytes.hex()` is modelled by the raw byte list itself (hex encoding
  is a bijection and none of the claims inspects the hex text);
* Python dicts are association lists in insertion order; updating an
  existing key replaces the stored value in place, mirroring CPython.
-/

namespace Spec2Proof

/-! ## Byte and slice helpers -/

/-- Python slice `blob[a:b]` on a byte list (slices clamp at the ends,
exactly like `List.drop`/`List.take`). -/
def pySlice (l : List Nat) (a b : Nat) : List Nat :=
  (l.drop a).take (b - a)

/-- Little-endian integer value of a byte list; used to model the bit
pattern handed to `struct.unpack` for 32-bit and 64-bit fields. -/
def leNat : List Nat → Nat
  | [] => 0
  | b :: rest => b + 256 * leNat rest

/-! ## `decode_varint` (src/utils/protobuf_parser.py lines 195-218)

Python:
```
value = 0; shift = 0; consumed = 0
for byte in data:
    consumed += 1
    value |= (byte & 0x7F) << shift
    if not (byte & 0x80):
        break
    shift += 7
    if consumed > 10:
        break
return value, consumed
```
-/

/-- Loop body of `decode_varint`, with the mutable `value`, `shift` and
`consumed` variables made explicit. -/
def varintGo : List Nat → Nat → Nat → Nat → Nat × Nat
  | [], value, _, consumed => (value, consumed)
  | byte :: rest, value, shift, consumed =>
      let consumed' := consumed + 1
      let value' := value ||| ((byte &&& 0x7F) <<< shift)
      if byte &&& 0x80 = 0 then (value', consumed')
      else if consumed' > 10 then (value', consumed')
      else varintGo rest value' (shift + 7) consumed'

/-- Embedding of `decode_varint`: returns `(decoded_value, num_bytes_consumed)`. -/
def decode_varint (data : List Nat) : Nat × Nat :=
  varintGo data 0 0 0

theorem varintGo_consumed_ge (data : List Nat) :
    ∀ v s c, c ≤ (varintGo data v s c).2 := by
  induction data with
  | nil => intro v s c; simp [varintGo]
  | cons b rest ih =>
      intro v s c
      simp only [varintGo]
      split
      · simp
      · split
        · simp
        · exact le_trans (Nat.le_succ c) (ih _ _ _)

theorem varintGo_consumed_le (data : List Nat) :
    ∀ v s c, (varintGo data v s c).2 ≤ c + data.length := by
  induction data with
  | nil => intro v s c; simp [varintGo]
  | cons b rest ih =>
      intro v s c
      simp only [varintGo]
      split
      · simp only [List.length_cons]; omega
      · split
        · simp only [List.length_cons]; omega
        · have := ih (v ||| ((b &&& 0x7F) <<< s)) (s + 7) (c + 1)
          simp only [List.length_cons]
          omega

/-- The varint decoder consumes at least one byte from non-empty input. -/
theorem decode_varint_pos (data : List Nat) (h : data ≠ []) :
    1 ≤ (decode_varint data).2 := by
  cases data with
  | nil => exact absurd rfl h
  | cons b rest =>
      show 1 ≤ (varintGo (b :: rest) 0 0 0).2
      simp only [varintGo]
      split
      · simp
      · split
        · simp
        · exact le_trans (by omega) (varintGo_consumed_ge rest _ _ _)

/-- The varint decoder never consumes more bytes than are present. -/
theorem decode_varint_le (data : List Nat) :
    (decode_varint data).2 ≤ data.length := by
  have := varintGo_consumed_le data 0 0 0
  simpa [decode_varint] using this

/-- Locality of the varint decoder: its result is fully determined by the
bytes it actually consumed. -/
theorem varintGo_take (data : List Nat) :
    ∀ v s c, varintGo (data.take ((varintGo data v s c).2 - c)) v s c =
      varintGo data v s c := by
  induction data with
  | nil => intro v s c; simp [varintGo]
  | cons b rest ih =>
      intro v s c
      by_cases h1 : b &&& 0x80 = 0
      · simp [varintGo, h1]
      · by_cases h2 : c + 1 > 10
        · simp [varintGo, h1, h2]
        · have hge : c + 1 ≤ (varintGo rest (v ||| ((b &&& 0x7F) <<< s)) (s + 7) (c + 1)).2 :=
            varintGo_consumed_ge rest _ _ _
          have hstep : ∀ l', varintGo (b :: l') v s c =
              varintGo l' (v ||| ((b &&& 0x7F) <<< s)) (s + 7) (c + 1) := by
            intro l'; simp [varintGo, h1, h2]
          rw [hstep rest]
          have htake : (b :: rest).take ((varintGo rest (v ||| ((b &&& 0x7F) <<< s)) (s + 7) (c + 1)).2 - c) =
              b :: rest.take ((varintGo rest (v ||| ((b &&& 0x7F) <<< s)) (s + 7) (c + 1)).2 - (c + 1)) := by
            have : (varintGo rest (v ||| ((b &&& 0x7F) <<< s)) (s + 7) (c + 1)).2 - c =
                ((varintGo rest (v ||| ((b &&& 0x7F) <<< s)) (s + 7) (c + 1)).2 - (c + 1)) + 1 := by
              omega
            rw [this, List.take_succ_cons]
          rw [htake, hstep, ih]

/-- Locality of `decode_varint` at the top level: re-decoding just the
consumed bytes yields the same value and consumption. -/
theorem decode_varint_take (data : List Nat) :
    decode_varint (data.take (decode_varint data).2) = decode_varint data := by
  have := varintGo_take data 0 0 0
  simpa [decode_varint] using this

/-! ## UTF-8 decoding and `str.isprintable`

`decode_protobuf_blob` attempts `data.decode('utf-8')` (strict — an
error selects the bytes branch) and `extract_strings_from_blob` uses
`decode('utf-8', errors='ignore')`. Both are embedded below with the
standard UTF-8 well-formedness rules (the ones CPython enforces:
shortest form only, no surrogates, max U+10FFFF).
-/

/-- UTF-8 continuation byte, `0x80..0xBF`. -/
def isContByte (b : Nat) : Bool := 0x80 ≤ b && b ≤ 0xBF

/-- Decoding of one UTF-8 sequence whose first byte is `b` and whose
following bytes start `rest`: the decoded character and how many bytes
of `rest` the sequence also consumed, or `none` when `b` does not open
a well-formed sequence here (shortest form only, no surrogates, max
U+10FFFF — the rules CPython enforces). -/
def utf8Step (b : Nat) (rest : List Nat) : Option (Char × Nat) :=
  if b < 0x80 then some (Char.ofNat b, 0)
  else if 0xC2 ≤ b && b ≤ 0xDF then
    match rest with
    | c1 :: _ =>
        if isContByte c1 then
          some (Char.ofNat (((b &&& 0x1F) <<< 6) ||| (c1 &&& 0x3F)), 1)
        else none
    | [] => none
  else if 0xE0 ≤ b && b ≤ 0xEF then
    match rest with
    | c1 :: c2 :: _ =>
        let okC1 : Bool :=
          if b = 0xE0 then 0xA0 ≤ c1 && c1 ≤ 0xBF
          else if b = 0xED then 0x80 ≤ c1 && c1 ≤ 0x9F
          else isContByte c1
        if okC1 && isContByte c2 then
          some (Char.ofNat
            (((b &&& 0x0F) <<< 12) ||| ((c1 &&& 0x3F) <<< 6) ||| (c2 &&& 0x3F)), 2)
        else none
    | _ => none
  else if 0xF0 ≤ b && b ≤ 0xF4 then
    match rest with
    | c1 :: c2 :: c3 :: _ =>
        let okC1 : Bool :=
          if b = 0xF0 then 0x90 ≤ c1 && c1 ≤ 0xBF
          else if b = 0xF4 then 0x80 ≤ c1 && c1 ≤ 0x8F
          else isContByte c1
        if okC1 && isContByte c2 && isContByte c3 then
          some (Char.ofNat
            (((b &&& 0x07) <<< 18) ||| ((c1 &&& 0x3F) <<< 12) |||
              ((c2 &&& 0x3F) <<< 6) ||| (c3 &&& 0x3F)), 3)
        else none
    | _ => none
  else none

/-- Fuel-indexed loop of the strict decoder; the fuel only bounds the
recursion depth (one unit per decoded sequence, each of which consumes
at least one byte), so `length + 1` units always suffice. -/
def utf8StrictGo : Nat → List Nat → Option (List Char)
  | 0, _ => some []
  | _ + 1, [] => some []
  | fuel + 1, b :: rest =>
    match utf8Step b rest with
    | some (c, n) => (utf8StrictGo fuel (rest.drop n)).map (fun cs => c :: cs)
    | none => none

/-- Strict UTF-8 decoding to a code-point list: `some` exactly when the
whole byte list is well-formed UTF-8 (the success case of Python's
`bytes.decode('utf-8')`). -/
def utf8DecodeStrict (l : List Nat) : Option (List Char) :=
  utf8StrictGo (l.length + 1) l

/-- Fuel-indexed loop of the `errors='ignore'` decoder. -/
def utf8IgnoreGo : Nat → List Nat → List Char
  | 0, _ => []
  | _ + 1, [] => []
  | fuel + 1, b :: rest =>
    match utf8Step b rest with
    | some (c, n) => c :: utf8IgnoreGo fuel (rest.drop n)
    | none => utf8IgnoreGo fuel rest

/-- UTF-8 decoding with `errors='ignore'`: a byte that does not start a
well-formed sequence is skipped and decoding continues (this models
CPython's behaviour; for multi-byte errors CPython may skip the whole
invalid run at once, which yields the same decoded text). -/
def utf8DecodeIgnore (l : List Nat) : List Char :=
  utf8IgnoreGo (l.length + 1) l

/-- Python `str.isprintable` per character: false for C0 controls, DEL,
C1 controls (U+0080–U+009F), NBSP (U+00A0) and SOFT HYPHEN (U+00AD);
true otherwise. Beyond Latin-1 the model treats code points as
printable (the repository only ever feeds it ASCII-ranged text). -/
def pyPrintableChar (c : Char) : Bool :=
  let n := c.toNat
  if n < 0x20 then false
  else if n = 0x7F then false
  else if 0x80 ≤ n && n ≤ 0xA0 then false
  else if n = 0xAD then false
  else true

/-- Python `s.isprintable()` (true on the empty string, like Python). -/
def pyIsPrintable (cs : List Char) : Bool := cs.all pyPrintableChar

/-! ## The field scan of `decode_protobuf_blob`
(src/utils/protobuf_parser.py lines 241-301)

Each decoded field is recorded as a `FieldRec`, which carries — besides
the dict key and the stored value — the byte interval `[start, stop)` of
the blob from which the value was computed. The interval is ghost
instrumentation used to state the truncation-safety claim; the key and
value components are exactly the Python code's
`result['fields'][...] = ...` assignments.
-/

/-- Stored field values. `fixed64`/`fixed32` keep the little-endian bit
pattern that Python hands to `struct.unpack`; `bytesval` keeps the raw
payload whose `.hex()` the Python code stores. -/
inductive FVal where
  | varint (v : Nat)
  | fixed64 (bits : Nat)
  | strval (s : String)
  | bytesval (b : List Nat)
  | fixed32 (bits : Nat)
  deriving DecidableEq, Repr

/-- Python's f-string key `f'field_{field_number}_{kind}'`. -/
def fieldKey (n : Nat) (kind : String) : String :=
  "field_" ++ Nat.repr n ++ "_" ++ kind

/-- Value stored for a wire-type-2 payload: a string when the payload is
valid UTF-8 and printable, otherwise the raw bytes (Python stores
`data.hex()`). -/
def wire2Val (data : List Nat) : FVal :=
  match utf8DecodeStrict data with
  | some cs => if pyIsPrintable cs then .strval (String.mk cs) else .bytesval data
  | none => .bytesval data

/-- Key kind chosen for a wire-type-2 payload (`string` or `bytes`),
matching the branch taken in `wire2Val`. -/
def wire2Kind (data : List Nat) : String :=
  match utf8DecodeStrict data with
  | some cs => if pyIsPrintable cs then "string" else "bytes"
  | none => "bytes"

/-- One decoded field: dict key, stored value, and the byte interval
`[start, stop)` of the source blob the value was computed from. -/
structure FieldRec where
  key : String
  val : FVal
  start : Nat
  stop : Nat
  deriving DecidableEq, Repr

theorem drop_ne_nil_of_lt {l : List Nat} {i : Nat} (h : i < l.length) :
    l.drop i ≠ [] := by
  intro hnil
  have := congrArg List.length hnil
  simp at this
  omega

/-- Fuel-indexed embedding of the `while i < len(blob)` scan loop of
`decode_protobuf_blob`. Every iteration advances `i` by at least the
tag's byte count (≥ 1 on non-empty input), so the fuel only bounds the
recursion depth; `scanRecs` below supplies enough for any start
offset. -/
def scanGo (blob : List Nat) : Nat → Nat → List FieldRec
  | 0, _ => []
  | fuel + 1, i =>
    if i < blob.length then
      let td := decode_varint (blob.drop i)
      let fieldNumber := td.1 >>> 3
      let wireType := td.1 &&& 0x07
      let j := i + td.2
      if wireType = 0 then
        let vs := decode_varint (blob.drop j)
        ⟨fieldKey fieldNumber "varint", .varint vs.1, j, j + vs.2⟩ ::
          scanGo blob fuel (j + vs.2)
      else if wireType = 1 then
        if j + 8 ≤ blob.length then
          ⟨fieldKey fieldNumber "64bit", .fixed64 (leNat (pySlice blob j (j + 8))), j, j + 8⟩ ::
            scanGo blob fuel (j + 8)
        else []
      else if wireType = 2 then
        let ls := decode_varint (blob.drop j)
        let k := j + ls.2
        if k + ls.1 ≤ blob.length then
          let data := pySlice blob k (k + ls.1)
          ⟨fieldKey fieldNumber (wire2Kind data), wire2Val data, k, k + ls.1⟩ ::
            scanGo blob fuel (k + ls.1)
        else []
      else if wireType = 5 then
        if j + 4 ≤ blob.length then
          ⟨fieldKey fieldNumber "32bit", .fixed32 (leNat (pySlice blob j (j + 4))), j, j + 4⟩ ::
            scanGo blob fuel (j + 4)
        else []
      else []
    else []

/-- The sequence of fields the scan loop records from offset `i`, in
order. -/
def scanRecs (blob : List Nat) (i : Nat) : List FieldRec :=
  scanGo blob (blob.length + 1) i

/-- Fuel irrelevance for the scan loop: any fuel at least the number of
remaining bytes plus one yields the same record list. -/
theorem scanGo_fuel (blob : List Nat) :
    ∀ f g i, blob.length ≤ i + f → blob.length ≤ i + g →
      scanGo blob f i = scanGo blob g i := by
  intro f
  induction f with
  | zero =>
      intro g i hf hg
      cases g with
      | zero => rfl
      | succ g' =>
          have : ¬i < blob.length := by omega
          simp [scanGo, this]
  | succ f' ih =>
      intro g i hf hg
      cases g with
      | zero =>
          have : ¬i < blob.length := by omega
          simp [scanGo, this]
      | succ g' =>
          by_cases h : i < blob.length
          · have h1 : 1 ≤ (decode_varint (blob.drop i)).2 :=
              decode_varint_pos _ (drop_ne_nil_of_lt h)
            simp only [scanGo, h, if_true]
            split
            · exact congrArg _ (ih _ _ (by omega) (by omega))
            · split
              · split
                · exact congrArg _ (ih _ _ (by omega) (by omega))
                · rfl
              · split
                · split
                  · exact congrArg _ (ih _ _ (by omega) (by omega))
                  · rfl
                · split
                  · split
                    · exact congrArg _ (ih _ _ (by omega) (by omega))
                    · rfl
                  · rfl
          · simp [scanGo, h]

/-- Python dict assignment `d[k] = v`: replaces the value in place when
the key exists (keeping its insertion position), appends otherwise. -/
def dictInsert (d : List (String × FVal)) (k : String) (v : FVal) :
    List (String × FVal) :=
  match d with
  | [] => [(k, v)]
  | (k', v') :: rest =>
      if k' = k then (k', v) :: rest else (k', v') :: dictInsert rest k v

/-- The `result['fields']` dict of `decode_protobuf_blob`: the scan's
records folded into a dict by Python dict assignment. -/
def fieldsOf (blob : List Nat) : List (String × FVal) :=
  (scanRecs blob 0).foldl (fun d r => dictInsert d r.key r.val) []

/-! ## Character classes used by `sanitize_extracted_string`

All predicates are stated on code points. The repository feeds this
function text recovered from ASCII/UTF-8 scans; the ASCII definitions
below agree with Python on that range (the handful of Unicode-only
members of `isdigit`/`isspace`/`isupper` are irrelevant here and noted
where they exist).
-/

/-- Python `str.strip()` whitespace: tab..carriage-return (9–13), the
ASCII information separators (28–31) and space (32). (Python also
strips a few Unicode space characters, not produced by this codebase.) -/
def isPySpace (c : Char) : Bool :=
  (9 ≤ c.toNat && c.toNat ≤ 13) || (28 ≤ c.toNat && c.toNat ≤ 32)

/-- Membership in the `artifacts` list of `sanitize_extracted_string`
(line 23): `( ) [ ] { } < > $ * & | ^ ~ `` ` `` - # % @`. -/
def isArtifact (c : Char) : Bool :=
  [40, 41, 91, 93, 123, 125, 60, 62, 36, 42, 38, 124, 94, 126, 96,
    45, 35, 37, 64].contains c.toNat

/-- Membership in Python's `string.punctuation`: code points 33–47,
58–64, 91–96 and 123–126. -/
def isPyPunct (c : Char) : Bool :=
  (33 ≤ c.toNat && c.toNat ≤ 47) || (58 ≤ c.toNat && c.toNat ≤ 64) ||
  (91 ≤ c.toNat && c.toNat ≤ 96) || (123 ≤ c.toNat && c.toNat ≤ 126)

/-- ASCII decimal digit (`str.isdigit` on the text this code handles). -/
def isAsciiDigit (c : Char) : Bool := 48 ≤ c.toNat && c.toNat ≤ 57

/-- ASCII uppercase letter (`str.isupper` on a single ASCII char). -/
def isAsciiUpper (c : Char) : Bool := 65 ≤ c.toNat && c.toNat ≤ 90

/-- ASCII lowercase letter (`str.islower` on a single ASCII char). -/
def isAsciiLower (c : Char) : Bool := 97 ≤ c.toNat && c.toNat ≤ 122

/-- ASCII letter or digit; regex `[A-Za-z0-9]`. -/
def isAlnum (c : Char) : Bool :=
  isAsciiUpper c || isAsciiLower c || isAsciiDigit c

/-- Regex `\w` (ASCII range): letter, digit or underscore. -/
def isWordChar (c : Char) : Bool := isAlnum c || c.toNat = 95

/-- Single or double quote, the class `["\']` used by several of the
sanitizer's regexes. -/
def isQuoteChar (c : Char) : Bool := c.toNat = 34 || c.toNat = 39

/-- Python `s.strip()`: remove leading and trailing whitespace. -/
def pyStrip (l : List Char) : List Char :=
  ((l.dropWhile isPySpace).reverse.dropWhile isPySpace).reverse

theorem dropWhile_length_le (p : Char → Bool) (l : List Char) :
    (l.dropWhile p).length ≤ l.length := by
  induction l with
  | nil => simp
  | cons c rest ih =>
      by_cases h : p c
      · simp [List.dropWhile_cons, h]; omega
      · simp [List.dropWhile_cons, h]

theorem takeWhile_length_le (p : Char → Bool) (l : List Char) :
    (l.takeWhile p).length ≤ l.length := by
  induction l with
  | nil => simp
  | cons c rest ih =>
      by_cases h : p c
      · simp [List.takeWhile_cons, h]; omega
      · simp [List.takeWhile_cons, h]

theorem pyStrip_length (l : List Char) : (pyStrip l).length ≤ l.length := by
  have h1 := dropWhile_length_le isPySpace l
  have h2 := dropWhile_length_le isPySpace (l.dropWhile isPySpace).reverse
  simp [pyStrip]
  simp at h2
  omega

/-- Python `p in s` for lists (substring containment). -/
def listContainsSub (s d : List Char) : Bool :=
  (List.range (s.length + 1)).any (fun p => (s.drop p).take d.length == d)

/-- Python `s.startswith(p)` for lists. -/
def startsWithL (l : List Char) (p : String) : Bool :=
  l.take p.data.length == p.data

/-- Python `s.endswith(p)` for lists. -/
def endsWithL (l : List Char) (p : String) : Bool :=
  l.reverse.take p.data.length == p.data.reverse

/-! ## `sanitize_extracted_string` (src/utils/protobuf_parser.py lines 8-134)

The function is an ordered pipeline; each stage below is one block of
the Python function, in source order, with the Python excerpt quoted in
its doc comment. It operates on `List Char` and is wrapped into a
`String` function at the end.
-/

/-- Lines 32-38:
```
if s and len(s) > 3:
    is_uuid_like = s.count('-') >= 3 and len(s) >= 36
    if not is_uuid_like and s[0].isdigit() and not s[1].isdigit():
        s = s[1:].strip()
``` -/
def stripLeadDigit (s : List Char) : List Char :=
  match s with
  | c0 :: c1 :: _ =>
      if s.length > 3 then
        let isUuidLike : Bool := s.countP (fun c => c == '-') ≥ 3 && s.length ≥ 36
        if ¬isUuidLike && isAsciiDigit c0 && ¬isAsciiDigit c1 then
          pyStrip (s.drop 1)
        else s
      else s
  | _ => s

/-- Fuel-indexed `while s and s[0] in cls: s = s[1:].strip()` loop; each
iteration shortens the string, so `length + 1` fuel always suffices. -/
def stripLeadGo (cls : Char → Bool) : Nat → List Char → List Char
  | 0, s => s
  | fuel + 1, s =>
      match s with
      | [] => []
      | c :: rest => if cls c then stripLeadGo cls fuel (pyStrip rest) else c :: rest

/-- Lines 41-42: `while s and s[0] in artifacts: s = s[1:].strip()`. -/
def stripLeadArtifacts (s : List Char) : List Char :=
  stripLeadGo isArtifact (s.length + 1) s

/-- Lines 47-48: `while s and s[0] in string.punctuation: s = s[1:].strip()`. -/
def stripLeadPunct (s : List Char) : List Char :=
  stripLeadGo isPyPunct (s.length + 1) s

/-- Lines 54-58:
```
if s and len(s) > 4 and s[0].isupper() and s[1].islower():
    rest = s[1:]
    if rest.startswith('com.') or rest.startswith('is.') or
       rest.startswith('net.') or rest.startswith('org.'):
        s = rest.strip()
``` -/
def stripLeadUpper (s : List Char) : List Char :=
  match s with
  | c0 :: c1 :: _ =>
      if s.length > 4 && isAsciiUpper c0 && isAsciiLower c1 then
        let rest := s.drop 1
        if startsWithL rest "com." || startsWithL rest "is." ||
            startsWithL rest "net." || startsWithL rest "org." then
          pyStrip rest
        else s
      else s
  | _ => s

/-- Fuel-indexed loop for lines 61-62. -/
def stripTrailGo : Nat → List Char → List Char
  | 0, s => s
  | fuel + 1, s =>
      match s.getLast? with
      | some c =>
          if isArtifact c || isQuoteChar c then stripTrailGo fuel (pyStrip s.dropLast)
          else s
      | none => s

/-- Lines 61-62:
`while s and (s[-1] in artifacts or s.endswith('"') or s.endswith("'")): s = s[:-1].strip()`. -/
def stripTrailArtifacts (s : List Char) : List Char :=
  stripTrailGo (s.length + 1) s

/-- Line 65: `s = re.sub(r'["\']\d+$', '', s).strip()` — drop a trailing
quote-plus-digit-run (the regex match is the quote immediately before
the maximal trailing digit run). -/
def stripTrailQuoteDigits (s : List Char) : List Char :=
  let r := s.reverse
  let digits := r.takeWhile isAsciiDigit
  if digits.isEmpty then s
  else
    match r.drop digits.length with
    | q :: rest => if isQuoteChar q then rest.reverse else s
    | [] => s

/-- Line 68: `s = re.sub(r'["\'][+]+$', '', s).strip()` — drop a trailing
quote-plus-plus-run. -/
def stripTrailQuotePlus (s : List Char) : List Char :=
  let r := s.reverse
  let pluses := r.takeWhile (fun c => c == '+')
  if pluses.isEmpty then s
  else
    match r.drop pluses.length with
    | q :: rest => if isQuoteChar q then rest.reverse else s
    | [] => s

/-- Line 72: `re.match(r'^(com|is|net|org)\.', s)` — the string starts
with one of the recognized bundle-identifier heads. -/
def isBundleId (s : List Char) : Bool :=
  startsWithL s "com." || startsWithL s "is." ||
  startsWithL s "net." || startsWithL s "org."

/-- Line 74: `s = re.sub(r'\d+[A-Z]$', '', s).strip()` — drop a trailing
digit-run followed by a single uppercase letter. -/
def stripTrailDigitUpper (s : List Char) : List Char :=
  match s.reverse with
  | c :: rest =>
      if isAsciiUpper c then
        let digits := rest.takeWhile isAsciiDigit
        if digits.isEmpty then s else (rest.drop digits.length).reverse
      else s
  | [] => s

/-- Length of the maximal trailing ASCII-digit run (`re.search(r'\d{2,}$', s)`
succeeds iff this is ≥ 2). -/
def trailDigitRun (s : List Char) : Nat :=
  (s.reverse.takeWhile isAsciiDigit).length

/-- Lines 77-78: `s = re.sub(r'\d{2,}$', '', s).strip()` — remove the whole
trailing digit run (the leftmost match of `\d{2,}$` starts at the run's
first digit). -/
def dropTrailDigits (s : List Char) : List Char :=
  (s.reverse.dropWhile isAsciiDigit).reverse

/-- Lines 81-92, the `suspicious_patterns` rejection tests, each one an
anchored `re.match`:
`^\d+["\']$`, `^["\']`, `["\'][^"\']*["\']$` (anchored at the start by
`re.match`, so: first char a quote, last char a quote, no quote between),
`^\W+$`, `^.\*.$`, `^bplist\d+$`. -/
def suspicious (s : List Char) : Bool :=
  (let ds := s.takeWhile isAsciiDigit
   ¬ds.isEmpty &&
     (match s.drop ds.length with
      | [q] => isQuoteChar q
      | _ => false)) ||
  (match s with
   | c :: _ => isQuoteChar c
   | [] => false) ||
  (s.length ≥ 2 &&
    (match s, s.getLast? with
     | c0 :: _, some cl =>
         isQuoteChar c0 && isQuoteChar cl &&
           ((s.drop 1).dropLast.all (fun c => ¬isQuoteChar c))
     | _, _ => false)) ||
  (¬s.isEmpty && s.all (fun c => ¬isWordChar c)) ||
  (match s with
   | [a, m, b] => m == '*' && ¬(a == Char.ofNat 10) && ¬(b == Char.ofNat 10)
   | _ => false) ||
  (startsWithL s "bplist" &&
    (let rest := s.drop 6
     ¬rest.isEmpty && rest.all isAsciiDigit))

/-- Occurrence test: does `d` occur in `s` at position `p`? -/
def occAt (s d : List Char) (p : Nat) : Bool :=
  (s.drop p).take d.length == d

/-- Python `s.count(d)`: number of non-overlapping occurrences, scanning
left to right. The `fuel` argument is the scan position budget. -/
def countSubGo (s d : List Char) : Nat → Nat → Nat
  | 0, _ => 0
  | fuel + 1, p =>
      if p + d.length ≤ s.length then
        if occAt s d p then 1 + countSubGo s d fuel (p + d.length)
        else countSubGo s d fuel (p + 1)
      else 0

/-- Python `s.count(d)` for a non-empty needle `d`. -/
def pyCountSub (s d : List Char) : Nat :=
  countSubGo s d (s.length + 1) 0

/-- Python `s.split(d)[0]` for a non-empty needle: the part before the
first occurrence of `d` (the whole string when `d` is absent). -/
def takeUntilSub (s d : List Char) : List Char :=
  match (List.range (s.length + 1)).find? (occAt s d) with
  | some p => s.take p
  | none => s

/-- Line 117: `re.search(group + re.escape(delim) + r'[\s]*\S', s)` where
`group = ([A-Z][a-z]+[A-Z]|[a-z]+\.[A-Z]|\d|[a-z]+|[A-Z])`. Every
alternative of the group ends in a letter or digit and every single
letter or digit matches one of `\d`, `[a-z]+`, `[A-Z]`, so the search
succeeds iff some occurrence of the delimiter is immediately preceded
by an ASCII letter or digit and is followed — after optional
whitespace — by a non-whitespace character. -/
def delimCond1 (s d : List Char) : Bool :=
  (List.range (s.length + 1)).any (fun p =>
    occAt s d p && 1 ≤ p && isAlnum (s.getD (p - 1) ' ') &&
      ¬((s.drop (p + d.length)).dropWhile isPySpace).isEmpty)

/-- Line 119: `re.search(group + re.escape(delim) + r'\s*$', s)` — some
occurrence of the delimiter has a letter/digit right before it and only
whitespace after it. -/
def delimCondEnd (s d : List Char) : Bool :=
  (List.range (s.length + 1)).any (fun p =>
    occAt s d p && 1 ≤ p && isAlnum (s.getD (p - 1) ' ') &&
      (s.drop (p + d.length)).all isPySpace)

/-- Line 126: `re.search(r'[A-Za-z0-9]' + re.escape(delim) + r'[A-Za-z0-9]', s)`
— some occurrence has a letter/digit immediately on both sides. -/
def delimCondAdj (s d : List Char) : Bool :=
  (List.range (s.length + 1)).any (fun p =>
    occAt s d p && 1 ≤ p && isAlnum (s.getD (p - 1) ' ') &&
      (match s.drop (p + d.length) with
       | c :: _ => isAlnum c
       | [] => false))

/-- Lines 104-128, the body of `for delimiter in [...]` for one
delimiter: `some` of the split-and-stripped string when this delimiter
triggers a split (ending the loop), `none` otherwise. -/
def delimStep (s d : List Char) : Option (List Char) :=
  if listContainsSub s d then
    if delimCond1 s d then
      if ¬delimCondEnd s d then some (pyStrip (takeUntilSub s d)) else none
    else if pyCountSub s d ≥ 2 then
      if delimCondAdj s d then some (pyStrip (takeUntilSub s d)) else none
    else none
  else none

/-- The delimiter list `['*', '!', '#', '^', '\\\\', '$', '%']` of line
104; the fifth entry is the two-character sequence backslash-backslash. -/
def sanitizerDelims : List (List Char) :=
  [['*'], ['!'], ['#'], ['^'], [Char.ofNat 92, Char.ofNat 92], ['$'], ['%']]

/-- The whole delimiter loop: the first delimiter that triggers a split
rewrites the string and breaks; otherwise the string is unchanged. -/
def delimLoop (s : List Char) : List Char :=
  go sanitizerDelims s
where
  go : List (List Char) → List Char → List Char
    | [], s => s
    | d :: ds, s =>
        match delimStep s d with
        | some s' => s'
        | none => go ds s

/-- Lines 72-78 as one stage: the two trailing-digit strips applied
only to bundle-identifier-shaped strings. -/
def bundleDigitStage (s : List Char) : List Char :=
  if isBundleId s then
    let t := pyStrip (stripTrailDigitUpper s)
    if trailDigitRun t ≥ 2 then pyStrip (dropTrailDigits t) else t
  else s

/-- Embedding of `sanitize_extracted_string` on character lists, stages
in source order. `none` is Python's `None` (rejection). -/
def sanitizeList (s0 : List Char) : Option (List Char) :=
  if s0.isEmpty then none
  else
    let original := s0
    let s1 := pyStrip s0
    let s2 := stripLeadDigit s1
    let s3 := stripLeadArtifacts s2
    let s4 := stripLeadPunct s3
    let s5 := stripLeadUpper s4
    let s6 := stripTrailArtifacts s5
    let s7 := pyStrip (stripTrailQuoteDigits s6)
    let s8 := pyStrip (stripTrailQuotePlus s7)
    let s9 := bundleDigitStage s8
    if suspicious s9 then none
    else if 2 * s9.length < original.length ∧ original.length > 10 then none
    else
      let s10 := delimLoop s9
      if s10.length < 3 then none
      else if s10.isEmpty then none
      else some s10

/-- Embedding of `sanitize_extracted_string` on `String`. -/
def sanitize_extracted_string (s : String) : Option String :=
  (sanitizeList s.data).map String.mk

/-! ## `extract_strings_from_blob` (src/utils/protobuf_parser.py lines 137-192) -/

/-- Byte in the printable-ASCII class `[\x20-\x7e]` of the extraction
regex. -/
def isPrintByte (b : Nat) : Bool := 0x20 ≤ b && b ≤ 0x7E

/-- Maximal runs of printable-ASCII bytes, in order; together with the
`≥ min_length` filter below this is exactly what
`re.finditer(rb'[\x20-\x7e]{min_length,}', blob)` yields (the greedy,
non-overlapping matches are the maximal runs of the class that reach
the length floor). -/
def asciiRunsGo : Nat → List Nat → List (List Nat)
  | 0, _ => []
  | _ + 1, [] => []
  | fuel + 1, b :: rest =>
      if isPrintByte b then
        let run := (b :: rest).takeWhile isPrintByte
        run :: asciiRunsGo fuel ((b :: rest).drop run.length)
      else asciiRunsGo fuel rest

/-- Maximal printable runs of a byte list (fuel `length + 1` always
suffices: every step consumes at least one byte). -/
def asciiRuns (l : List Nat) : List (List Nat) :=
  asciiRunsGo (l.length + 1) l

/-- Lines 162-184, the length-prefix scan (`# Pattern 2`):
```
i = 0
while i < len(blob) - 2:
    if blob[i] & 0x07 == 2:
        i += 1
        length, varint_size = decode_varint(blob[i:])
        if length > 0 and length < 1000:
            string_start = i + varint_size
            string_end = string_start + length
            if string_end <= len(blob):
                s = blob[string_start:string_end].decode('utf-8', errors='ignore')
                if s.isprintable() and len(s) >= min_length:
                    if s not in raw_strings:
                        raw_strings.append(s)
    i += 1
```
Note the inner `i += 1`: a position whose byte has wire type 2 advances
the scan by two. The `try/except` wrappers never fire (no operation in
the loop can raise once `decode` ignores errors). -/
def rawScan2Go (blob : List Nat) (minLen : Nat) : Nat → Nat → List String → List String
  | 0, _, acc => acc
  | fuel + 1, i, acc =>
    if i < blob.length - 2 then
      if (blob.getD i 0) &&& 0x07 = 2 then
        let i1 := i + 1
        let lv := decode_varint (blob.drop i1)
        let acc' :=
          if 0 < lv.1 ∧ lv.1 < 1000 then
            let start := i1 + lv.2
            let stop := start + lv.1
            if stop ≤ blob.length then
              let s := String.mk (utf8DecodeIgnore (pySlice blob start stop))
              if pyIsPrintable s.data ∧ minLen ≤ s.length ∧ ¬acc.contains s then
                acc ++ [s]
              else acc
            else acc
          else acc
        rawScan2Go blob minLen fuel (i1 + 1) acc'
      else rawScan2Go blob minLen fuel (i + 1) acc
    else acc

/-- The length-prefix scan from position 0 (fuel `length + 1` suffices:
`i` advances by at least one per iteration and the loop stops at
`len(blob) - 2`). -/
def rawScan2 (blob : List Nat) (minLen : Nat) (i : Nat) (acc : List String) :
    List String :=
  rawScan2Go blob minLen (blob.length + 1) i acc

/-- Embedding of `extract_strings_from_blob`: ASCII runs, then the
length-prefix scan, then each raw string sanitized and deduplicated
(`if cleaned and cleaned not in strings`). -/
def extract_strings_from_blob (blob : List Nat) (minLen : Nat) : List String :=
  if blob.isEmpty then []
  else
    let raw1 := ((asciiRuns blob).filter (fun run => minLen ≤ run.length)).map
      (fun run => String.mk (run.map Char.ofNat))
    let raws := rawScan2 blob minLen 0 raw1
    raws.foldl
      (fun strings s =>
        match sanitize_extracted_string s with
        | some cleaned =>
            if ¬cleaned.isEmpty ∧ ¬strings.contains cleaned then strings ++ [cleaned]
            else strings
        | none => strings) []

/-! ## `decode_protobuf_blob` (src/utils/protobuf_parser.py lines 221-301)

The returned Python dict, in insertion order. An empty blob returns the
bare `{}` of line 233. The `except` branch that would add a
`parse_error` key is dead code in this function (every slice is bounds
checked and the one fallible `decode` is wrapped in its own inner
`try`), so the result model has no `parse_error` entry.
-/

/-- Top-level values of the dict returned by `decode_protobuf_blob`. -/
inductive TopVal where
  | natval (n : Nat)
  | fieldsD (d : List (String × FVal))
  | strList (l : List String)
  deriving DecidableEq, Repr

/-- Embedding of `decode_protobuf_blob`. -/
def decode_protobuf_blob (blob : List Nat) : List (String × TopVal) :=
  if blob.isEmpty then []
  else
    [("raw_size", .natval blob.length),
     ("fields", .fieldsD (fieldsOf blob)),
     ("strings", .strList (extract_strings_from_blob blob 3))]

/-! ## A small backtracking regex engine

`src/utils/localization_parser.py` leans on `re` throughout. The
fragment it uses is: character classes, literals, alternation, capture
groups, greedy `+`/`{n,}` repetition over a character class, the
zero-width word boundary `\b`, and `$`. The engine below implements
exactly Python's backtracking search order for that fragment:
alternation tries the left branch first, concatenation backtracks the
left component from its longest match down, and repetition is greedy.
Each Python pattern is then transcribed constructor by constructor.
-/

/-- Regex abstract syntax for the fragment used by the repository.
`rep p lo` is the greedy `p{lo,}` over a single-character class; `wEnd`
is `\b` at a position whose left neighbour is a word character (next
char must be a non-word char or end of input). -/
inductive RE where
  | eps
  | sym (p : Char → Bool)
  | lit (cs : List Char)
  | cat (a b : RE)
  | alt (a b : RE)
  | rep (p : Char → Bool) (lo : Nat)
  | grp (n : Nat) (a : RE)
  | wEnd

/-- Backtracking helper for greedy repetition: try consuming `j` chars,
then `j - 1`, ... down to `lo`. -/
def repTry {α : Type} (lo : Nat) (l : List Char) (k : List Char → Option α) :
    Nat → Option α
  | 0 => if lo = 0 then k l else none
  | j + 1 =>
      if j + 1 < lo then none
      else (k (l.drop (j + 1))).orElse (fun _ => repTry lo l k j)

/-- Continuation-passing matcher: `REfind r l k` tries to match `r` at
the head of `l`, calling `k` with the captures and the remaining input;
alternatives are explored in Python's priority order and the first one
whose continuation succeeds wins. -/
def REfind {α : Type} : RE → List Char →
    (List (Nat × List Char) → List Char → Option α) → Option α
  | .eps, l, k => k [] l
  | .sym p, l, k =>
      match l with
      | [] => none
      | c :: rest => if p c then k [] rest else none
  | .lit cs, l, k =>
      if l.take cs.length = cs then k [] (l.drop cs.length) else none
  | .cat a b, l, k =>
      REfind a l (fun ga ra => REfind b ra (fun gb rb => k (ga ++ gb) rb))
  | .alt a b, l, k => (REfind a l k).orElse (fun _ => REfind b l k)
  | .rep p lo, l, k => repTry lo l (fun r => k [] r) (l.takeWhile p).length
  | .grp n a, l, k =>
      REfind a l (fun g r => k ((n, l.take (l.length - r.length)) :: g) r)
  | .wEnd, l, k =>
      match l with
      | [] => k [] l
      | c :: _ => if ¬isWordChar c then k [] l else none

/-- Right-nested concatenation of a pattern list. -/
def reCats (rs : List RE) : RE := rs.foldr .cat .eps

/-- Left-nested alternation of a pattern list (first pattern has
priority, like Python's `|`). -/
def reAlts : List RE → RE
  | [] => .eps
  | [r] => r
  | r :: rs => .alt r (reAlts rs)

/-- Literal string pattern. -/
def reLit (s : String) : RE := .lit s.data

/-- ASCII lowercasing of one character (Python `str.lower` on the ASCII
text this code handles). -/
def pyLowerChar (c : Char) : Char :=
  if isAsciiUpper c then Char.ofNat (c.toNat + 32) else c

/-- ASCII uppercasing of one character. -/
def pyUpperChar (c : Char) : Char :=
  if isAsciiLower c then Char.ofNat (c.toNat - 32) else c

/-- Case-insensitive literal (a literal under `re.IGNORECASE`). -/
def reLitCI (s : String) : RE :=
  reCats (s.data.map (fun ch => .sym (fun c => pyLowerChar c == pyLowerChar ch)))

/-- Python `re.match(r, s)` restricted to its success test and captures;
`anchorEnd` is true for patterns ending in `$` (none of the inputs here
end in a newline, so `$` is end-of-string). -/
def reMatchGroups (r : RE) (anchorEnd : Bool) (l : List Char) :
    Option (List (Nat × List Char)) :=
  REfind r l (fun g rest => if anchorEnd && ¬rest.isEmpty then none else some g)

/-- Success test of `re.match`. -/
def reMatchB (r : RE) (anchorEnd : Bool) (l : List Char) : Bool :=
  (reMatchGroups r anchorEnd l).isSome

/-- Success test of `re.search`: try every start position left to
right. -/
def reSearchB (r : RE) (anchorEnd : Bool) : List Char → Bool
  | [] => reMatchB r anchorEnd []
  | c :: rest => reMatchB r anchorEnd (c :: rest) || reSearchB r anchorEnd rest

/-- Matched span of an anchored match attempt: the consumed characters
and the rest of the input. -/
def reMatchConsumed (r : RE) (l : List Char) : Option (List Char × List Char) :=
  REfind r l (fun _ rest => some (l.take (l.length - rest.length), rest))

/-- Content of capture group `n` (empty when the group is absent). -/
def grpStr (g : List (Nat × List Char)) (n : Nat) : String :=
  String.mk (((g.find? (fun x => x.1 == n)).map Prod.snd).getD [])

/-! ## `src/utils/localization_parser.py`

Confidence scores are Python floats whose values are all multiples of
0.05; they are modelled in integer hundredths (0.6 ↦ 60, thresholds
0.7 ↦ 70, ...), which is exact for every comparison the module
performs.
-/

/-- The `KNOWN_ACRONYMS` set (lines 13-20). -/
def KNOWN_ACRONYMS : List String :=
  ["URL", "URI", "HTML", "XML", "JSON", "API", "UI", "ID", "PDF", "CSS",
   "HTTP", "HTTPS", "FTP", "SSH", "DNS", "IP", "TCP", "UDP", "SQL", "SMS",
   "MMS", "GPS", "USB", "CPU", "GPU", "RAM", "ROM", "OS", "iOS", "macOS",
   "UTC", "GMT", "RGB", "RGBA", "AVI", "MP3", "MP4", "PNG", "JPG", "JPEG",
   "GIF", "SVG", "CSV", "TSV", "ZIP", "TAR", "GZ", "WWW", "VPN", "LAN",
   "WAN", "WiFi", "NFC", "RFID", "OCR", "AI", "ML", "AR", "VR", "XR"]

/-- Python `str.lower()` (ASCII). -/
def pyLower (s : String) : String := String.mk (s.data.map pyLowerChar)

/-- Python `str.upper()` (ASCII). -/
def pyUpper (s : String) : String := String.mk (s.data.map pyUpperChar)

/-- Python `str.capitalize()`: first character uppercased, the rest
lowercased. -/
def pyCapitalize (s : String) : String :=
  match s.data with
  | [] => s
  | c :: rest => String.mk (pyUpperChar c :: rest.map pyLowerChar)

/-- Python `str.isupper()`: at least one cased character and no
lowercase one (ASCII letters are the cased characters here). -/
def pyIsUpperStr (l : List Char) : Bool :=
  l.any isAsciiUpper && l.all (fun c => ¬isAsciiLower c)

/-- Python `str.islower()`. -/
def pyIsLowerStr (l : List Char) : Bool :=
  l.any isAsciiLower && l.all (fun c => ¬isAsciiUpper c)

/-- Python `str.isdigit()` on ASCII text: non-empty and all digits. -/
def pyIsDigitStr (l : List Char) : Bool :=
  ¬l.isEmpty && l.all isAsciiDigit

/-- Number of occurrences of the character `c` (Python `s.count(c)`). -/
def countCharL (l : List Char) (c : Char) : Nat :=
  l.countP (fun x => x == c)

/-- Fuel-indexed loop of `s.split(sep)`. -/
def splitOnCharGo (sep : Char) : Nat → List Char → List (List Char)
  | 0, l => [l]
  | fuel + 1, l =>
      let w := l.takeWhile (fun c => ¬(c == sep))
      match l.drop w.length with
      | [] => [w]
      | _ :: rest => w :: splitOnCharGo sep fuel rest

/-- Python `s.split(sep)` for a single-character separator: keeps empty
parts (fuel `length + 1` suffices: each part consumes its text plus
one separator). -/
def splitOnChar (l : List Char) (sep : Char) : List (List Char) :=
  splitOnCharGo sep (l.length + 1) l

/-- Fuel-indexed loop of `s.split()`. -/
def splitWSGo : Nat → List Char → List (List Char)
  | 0, _ => []
  | _ + 1, [] => []
  | fuel + 1, c :: rest =>
      if isPySpace c then splitWSGo fuel rest
      else
        let w := (c :: rest).takeWhile (fun x => ¬isPySpace x)
        w :: splitWSGo fuel ((c :: rest).drop w.length)

/-- Python `s.split()` (no argument): split on whitespace runs,
discarding empty parts. -/
def splitWS (l : List Char) : List (List Char) :=
  splitWSGo (l.length + 1) l

/-- Python `' '.join(words)` on character lists. -/
def joinSpace (ws : List (List Char)) : List Char :=
  List.intercalate [' '] ws

/-- The version-triplet search pattern `_\d+\.\d+\.\d+_` (lines 43
and 91). -/
def reVersionMid : RE :=
  reCats [.sym (fun c => c == '_'), .rep isAsciiDigit 1, reLit ".",
    .rep isAsciiDigit 1, reLit ".", .rep isAsciiDigit 1,
    .sym (fun c => c == '_')]

/-- Suffix pattern of `is_localization_key` (line 47):
`_(description|name|parameter|intent|entity|type|title|representation)$`
with `re.IGNORECASE`. -/
def reKeySuffixIsLoc : RE :=
  .cat (.sym (fun c => c == '_'))
    (reAlts [reLitCI "description", reLitCI "name", reLitCI "parameter",
      reLitCI "intent", reLitCI "entity", reLitCI "type", reLitCI "title",
      reLitCI "representation"])

/-- Suffix pattern of `get_localization_key_confidence` (line 94):
`_(description|intent|entity|type|parameter|representation|title)$`
with `re.IGNORECASE` (no `name` alternative here). -/
def reKeySuffixConf : RE :=
  .cat (.sym (fun c => c == '_'))
    (reAlts [reLitCI "description", reLitCI "intent", reLitCI "entity",
      reLitCI "type", reLitCI "parameter", reLitCI "representation",
      reLitCI "title"])

/-- The embedded-key pattern `\w+_\w+_\d+\.\d+\.\d+_\w+` (line 59;
line 350 adds `\b` boundaries, handled by its substitution driver). -/
def reEmbeddedKey : RE :=
  reCats [.rep isWordChar 1, reLit "_", .rep isWordChar 1, reLit "_",
    .rep isAsciiDigit 1, reLit ".", .rep isAsciiDigit 1, reLit ".",
    .rep isAsciiDigit 1, reLit "_", .rep isWordChar 1]

/-- Embedding of `is_localization_key` (lines 23-69). -/
def is_localization_key (text : String) : Bool :=
  let l := text.data
  if l.isEmpty then false
  else if reSearchB reVersionMid false l then true
  else if reSearchB reKeySuffixIsLoc true l then true
  else if pyIsUpperStr l && l.contains '_' && l.length > 15 &&
      (["_INTENT_", "_TITLE", "_DESCRIPTION", "_NAME", "_PARAMETER"].any
        (fun suf => listContainsSub l suf.data)) then true
  else if reSearchB reEmbeddedKey false l then true
  else if countCharL l '_' ≥ 4 && ¬l.contains ' ' &&
      (["intent", "entity", "parameter", "description", "representation"].any
        (fun comp => listContainsSub (l.map pyLowerChar) comp.data)) then true
  else false

/-- Embedding of `get_localization_key_confidence` (lines 72-114), in
hundredths. -/
def get_localization_key_confidence (text : String) : Int :=
  let l := text.data
  if l.isEmpty then 0
  else
    let score : Int :=
      (if reSearchB reVersionMid false l then 60 else 0) +
      (if reSearchB reKeySuffixConf true l then 40 else 0) +
      (if countCharL l '_' ≥ 4 then 20 else 0) +
      (if ¬l.contains ' ' && l.length > 20 then 15 else 0) +
      (if pyIsUpperStr l && l.contains '_' then 30 else 0) +
      (if l.contains ' ' && countCharL l ' ' > countCharL l '_' then -40 else 0) +
      (if l.length > 0 && isAsciiUpper (l.getD 0 ' ') && l.length > 1 &&
          pyIsLowerStr (l.drop 1) then -30 else 0)
    max 0 (min 100 score)

/-- First substitution of `camel_case_to_title` (line 138):
`re.sub(r'([A-Z]+)([A-Z][a-z])', r'\1 \2', text)`. A space is inserted
between two uppercase letters followed by a lowercase letter; each
non-overlapping match contains exactly one such insertion point and no
two matches can straddle, so the local rule is exactly the
substitution. -/
def camelSub1 : List Char → List Char
  | a :: b :: c :: rest =>
      if isAsciiUpper a && isAsciiUpper b && isAsciiLower c then
        a :: ' ' :: camelSub1 (b :: c :: rest)
      else a :: camelSub1 (b :: c :: rest)
  | l => l

/-- Second substitution of `camel_case_to_title` (line 142):
`re.sub(r'([a-z])([A-Z])', r'\1 \2', result)` — a space between each
lowercase/uppercase adjacency. -/
def camelSub2 : List Char → List Char
  | a :: b :: rest =>
      if isAsciiLower a && isAsciiUpper b then a :: ' ' :: camelSub2 (b :: rest)
      else a :: camelSub2 (b :: rest)
  | l => l

/-- Embedding of `camel_case_to_title` (lines 117-156). -/
def camel_case_to_title (text : String) : String :=
  if text.data.isEmpty then text
  else
    let words := splitWS (camelSub2 (camelSub1 text.data))
    let processed := words.map (fun w =>
      let word := String.mk w
      if KNOWN_ACRONYMS.contains (pyUpper word) then pyUpper word
      else pyCapitalize word)
    String.mk (joinSpace (processed.map String.data))

/-- Suffix-stripping loop of `constant_to_title` (lines 177-180): the
first matching suffix is removed and the loop breaks. -/
def constSuffixStrip (l : List Char) : List Char :=
  match ["_INTENT_TITLE", "_INTENT_DESCRIPTION", "_INTENT", "_TITLE",
      "_DESCRIPTION", "_NAME"].find? (fun suf => endsWithL l suf) with
  | some suf => l.take (l.length - suf.data.length)
  | none => l

/-- Embedding of `constant_to_title` (lines 159-193). -/
def constant_to_title (text : String) : String :=
  if text.data.isEmpty then text
  else
    let words := splitOnChar (constSuffixStrip text.data) '_'
    let processed := words.map (fun w =>
      let word := String.mk w
      if KNOWN_ACRONYMS.contains word then word else pyCapitalize word)
    String.mk (joinSpace (processed.map String.data))

/-! ## `parse_localization_key` (lines 196-328) -/

/-- Component values of the `components` dict: named capture strings,
or the word list stored under `'words'`/`'parts'`. -/
inductive CompVal where
  | s (v : String)
  | ws (v : List String)
  deriving DecidableEq, Repr

/-- Result dict of `parse_localization_key` (lines 218-225).
`pattern_type` is `none` for Python's `None`; `confidence` is in
hundredths. -/
structure PLKResult where
  is_key : Bool
  pattern_type : Option String
  extracted_name : String
  confidence : Int
  components : List (String × CompVal)
  original : String
  deriving DecidableEq, Repr

/-- The version triplet group `(\d+\.\d+\.\d+)`. -/
def reVersionNum : RE :=
  reCats [.rep isAsciiDigit 1, reLit ".", .rep isAsciiDigit 1, reLit ".",
    .rep isAsciiDigit 1]

/-- Pattern 1 of `parse_localization_key` (line 240):
`(\w+)_(\w+[Ee]ntity)_(\d+\.\d+\.\d+)_entity_type_display_representation$`
with `re.IGNORECASE`. -/
def reEntityType : RE :=
  reCats [.grp 1 (.rep isWordChar 1), reLit "_",
    .grp 2 (.cat (.rep isWordChar 1) (reLitCI "entity")), reLit "_",
    .grp 3 reVersionNum, reLitCI "_entity_type_display_representation"]

/-- Pattern 2 (line 262):
`(\w+)_(\w+Intent)_(\d+\.\d+\.\d+)_intent_parameter_(\w+)_description$`. -/
def reParamDesc : RE :=
  reCats [.grp 1 (.rep isWordChar 1), reLit "_",
    .grp 2 (.cat (.rep isWordChar 1) (reLit "Intent")), reLit "_",
    .grp 3 reVersionNum, reLit "_intent_parameter_",
    .grp 4 (.rep isWordChar 1), reLit "_description"]

/-- Pattern 3 (line 278): `(\w+)_([A-Z]\w+)_(\d+\.\d+\.\d+)_(.+)$`
(`.` is any character except newline). -/
def reVersionBased : RE :=
  reCats [.grp 1 (.rep isWordChar 1), reLit "_",
    .grp 2 (.cat (.sym isAsciiUpper) (.rep isWordChar 1)), reLit "_",
    .grp 3 reVersionNum, reLit "_",
    .grp 4 (.rep (fun c => ¬(c == Char.ofNat 10)) 1)]

/-- The camelCase head test of pattern 5 (line 310):
`re.match(r'^[A-Z][a-z]+[A-Z]', p)`. -/
def reCamelHead : RE :=
  reCats [.sym isAsciiUpper, .rep isAsciiLower 1, .sym isAsciiUpper]

/-- Line 250: `re.sub(r'entity$', '', entity, flags=re.IGNORECASE)`. -/
def dropEntityTail (e : String) : String :=
  if endsWithL (e.data.map pyLowerChar) "entity" then
    String.mk (e.data.take (e.data.length - 6))
  else e

/-- Python `max(parts, key=len)`: the first element of maximal length. -/
def pickMaxLen (m0 : String) (ms : List String) : String :=
  ms.foldl (fun best p => if p.length > best.length then p else best) m0

/-- Embedding of `parse_localization_key`. -/
def parse_localization_key (key : String) : PLKResult :=
  let base : PLKResult := ⟨false, none, key, 0, [], key⟩
  if key.data.isEmpty then base
  else if ¬is_localization_key key then base
  else
    let conf := get_localization_key_confidence key
    match reMatchGroups reEntityType true key.data with
    | some g =>
        let entity := grpStr g 2
        let entityName := dropEntityTail entity
        let extracted :=
          if isAsciiUpper (entityName.data.getD 0 ' ') ||
              ¬entityName.data.contains '_' then
            camel_case_to_title entityName
          else
            String.mk (joinSpace ((splitOnChar entityName.data '_').map
              (fun w => (pyCapitalize (String.mk w)).data)))
        ⟨true, some "entity_type", extracted, max conf 90,
          [("app", .s (grpStr g 1)), ("entity", .s entity),
           ("version", .s (grpStr g 3))], key⟩
    | none =>
    match reMatchGroups reParamDesc true key.data with
    | some g =>
        ⟨true, some "parameter_description", camel_case_to_title (grpStr g 4),
          max conf 85,
          [("app", .s (grpStr g 1)), ("intent", .s (grpStr g 2)),
           ("version", .s (grpStr g 3)), ("parameter", .s (grpStr g 4))], key⟩
    | none =>
    match reMatchGroups reVersionBased true key.data with
    | some g =>
        ⟨true, some "version_based", camel_case_to_title (grpStr g 2),
          max conf 90,
          [("prefix", .s (grpStr g 1)), ("entity", .s (grpStr g 2)),
           ("version", .s (grpStr g 3)), ("suffix", .s (grpStr g 4))], key⟩
    | none =>
    if pyIsUpperStr key.data && key.data.contains '_' then
      ⟨true, some "constant_case", constant_to_title key, max conf 85,
        [("words", .ws ((splitOnChar key.data '_').map String.mk))], key⟩
    else if key.data.contains '_' then
      let parts := (splitOnChar key.data '_').map String.mk
      match parts.filter (fun p => reMatchB reCamelHead false p.data) with
      | p :: _ =>
          ⟨true, some "generic_underscore", camel_case_to_title p, max conf 70,
            [("parts", .ws parts)], key⟩
      | [] =>
          match parts.filter (fun p => p.length > 3 && ¬pyIsDigitStr p.data) with
          | m0 :: ms =>
              ⟨true, some "generic_underscore",
                pyCapitalize (pickMaxLen m0 ms), max conf 60,
                [("parts", .ws parts)], key⟩
          | [] =>
              ⟨true, some "generic_underscore", key, conf,
                [("parts", .ws parts)], key⟩
    else ⟨true, some "unknown", key, 50, [], key⟩

/-! ## `clean_embedded_keys` (lines 331-373) and `generate_readable_name`
(lines 376-438) -/

/-- The embedded-key replacement pattern of line 350 with its trailing
`\b` (the leading `\b` is enforced by the substitution driver):
`(\w+_\w+_\d+\.\d+\.\d+_\w+)\b`. -/
def reEmbKeyBounded : RE := .cat reEmbeddedKey .wEnd

/-- The constant-case replacement pattern of line 363 with its trailing
`\b`: `([A-Z][A-Z_]{10,})\b`. -/
def reConstBounded : RE :=
  reCats [.sym isAsciiUpper, .rep (fun c => isAsciiUpper c || c == '_') 10, .wEnd]

/-- The `replace_key` callback (lines 352-357): a matched key whose
parse is confident (`> 0.7`) is replaced by its lower-cased extracted
name. -/
def replaceKeyFn (matched : List Char) : List Char :=
  let parsed := parse_localization_key (String.mk matched)
  if parsed.is_key && parsed.confidence > 70 then
    (pyLower parsed.extracted_name).data
  else matched

/-- The `replace_constant` callback (lines 365-369). -/
def replaceConstFn (matched : List Char) : List Char :=
  let key := String.mk matched
  if matched.contains '_' && get_localization_key_confidence key > 70 then
    (pyLower (constant_to_title key)).data
  else matched

/-- Driver for `re.sub` with a pattern that begins and ends on `\b` and
starts with a word character: scan left to right over the original
text, attempt the pattern only at word boundaries, emit the replacement
and continue after the matched span. `prevWord` tracks whether the
character to the left is a word character; `fuel` bounds the scan. -/
def reSubGo (r : RE) (repl : List Char → List Char) :
    Nat → Bool → List Char → List Char
  | 0, _, l => l
  | _ + 1, _, [] => []
  | fuel + 1, prevWord, c :: rest =>
      if prevWord then c :: reSubGo r repl fuel (isWordChar c) rest
      else
        match reMatchConsumed r (c :: rest) with
        | some (matched, rest') => repl matched ++ reSubGo r repl fuel true rest'
        | none => c :: reSubGo r repl fuel (isWordChar c) rest

/-- Top-level `re.sub` for the two boundary-anchored patterns above. -/
def reSubBounded (r : RE) (repl : List Char → List Char) (l : List Char) :
    List Char :=
  reSubGo r repl l.length false l

/-- Embedding of `clean_embedded_keys`. -/
def clean_embedded_keys (text : String) : String :=
  if text.data.isEmpty then text
  else
    let r1 := reSubBounded reEmbKeyBounded replaceKeyFn text.data
    let r2 := reSubBounded reConstBounded replaceConstFn r1
    String.mk r2

/-- Result dict of `generate_readable_name` (lines 395-401);
`confidence` in hundredths. -/
structure RNResult where
  value : String
  is_synthetic : Bool
  original_key : Option String
  confidence : Int
  source : String
  deriving DecidableEq, Repr

/-- The parse-or-fallback tail of `generate_readable_name`
(lines 426-438). -/
def genReadableParsed (key : String) (fallback : Option String)
    (base : RNResult) : RNResult :=
  let parsed := parse_localization_key key
  if parsed.is_key && parsed.confidence > 60 then
    ⟨parsed.extracted_name, true, some key, parsed.confidence, "parsed_key"⟩
  else
    match fallback with
    | some f => if ¬f.data.isEmpty then ⟨f, false, none, 100, "fallback"⟩ else base
    | none => base

/-- Embedding of `generate_readable_name`. -/
def generate_readable_name (key : String) (fallback : Option String) :
    RNResult :=
  let base : RNResult := ⟨key, false, none, 100, "original"⟩
  if key.data.isEmpty then
    match fallback with
    | some f => if ¬f.data.isEmpty then ⟨f, false, none, 100, "fallback"⟩ else base
    | none => base
  else if ¬is_localization_key key then base
  else if key.data.contains ' ' then
    let cleaned := clean_embedded_keys key
    if cleaned ≠ key then ⟨cleaned, true, some key, 85, "cleaned_embedded"⟩
    else genReadableParsed key fallback base
  else genReadableParsed key fallback base

/-! ## Support lemmas about the field dict -/

theorem dictInsert_lookup (d : List (String × FVal)) (k : String) (v : FVal)
    (k' : String) :
    (dictInsert d k v).lookup k' = if k' = k then some v else d.lookup k' := by
  induction d with
  | nil =>
      by_cases h : k' = k
      · have hb : (k' == k) = true := beq_iff_eq.mpr h
        simp [dictInsert, List.lookup, hb, h]
      · have hb : (k' == k) = false := beq_eq_false_iff_ne.mpr h
        simp [dictInsert, List.lookup, hb, h]
  | cons e t ih =>
      obtain ⟨a, b⟩ := e
      by_cases hak : a = k
      · by_cases h : k' = k
        · have hb : (k' == a) = true := beq_iff_eq.mpr (by rw [h, hak])
          simp [dictInsert, hak, List.lookup, hb, h]
        · have hb : (k' == a) = false := beq_eq_false_iff_ne.mpr (by rw [hak]; exact h)
          have hb2 : (k' == k) = false := beq_eq_false_iff_ne.mpr h
          simp [dictInsert, hak, List.lookup, hb, hb2, h]
      · by_cases h : k' = a
        · have hne : ¬k' = k := by rw [h]; intro hh; exact hak hh
          have hb : (k' == a) = true := beq_iff_eq.mpr h
          simp [dictInsert, hak, List.lookup, hb, hne]
        · have hb : (k' == a) = false := beq_eq_false_iff_ne.mpr h
          simp [dictInsert, hak, List.lookup, hb, ih]

theorem dictInsert_keys (d : List (String × FVal)) (k : String) (v : FVal) :
    (dictInsert d k v).map Prod.fst =
      if k ∈ d.map Prod.fst then d.map Prod.fst else d.map Prod.fst ++ [k] := by
  induction d with
  | nil => simp [dictInsert]
  | cons e t ih =>
      obtain ⟨a, b⟩ := e
      by_cases hak : a = k
      · subst hak; simp [dictInsert]
      · have : ¬k = a := fun hh => hak hh.symm
        by_cases hmem : k ∈ t.map Prod.fst <;>
          simp [dictInsert, hak, this, hmem, ih]

theorem dictFold_keys_nodup (recs : List FieldRec) :
    ∀ d : List (String × FVal), (d.map Prod.fst).Nodup →
      ((recs.foldl (fun d r => dictInsert d r.key r.val) d).map Prod.fst).Nodup := by
  induction recs with
  | nil => intro d hd; simpa using hd
  | cons r t ih =>
      intro d hd
      refine ih (dictInsert d r.key r.val) ?_
      rw [dictInsert_keys]
      by_cases hmem : r.key ∈ d.map Prod.fst
      · simpa [hmem] using hd
      · simp only [hmem, if_false]
        simp [List.nodup_append, hd, hmem]

/-- The value that survives dict assignment for key `k`: the value of
the last scanned record with that key (starting from `init`). -/
def lastValFrom (k : String) (recs : List FieldRec) (init : Option FVal) :
    Option FVal :=
  recs.foldl (fun acc r => if r.key = k then some r.val else acc) init

theorem dictFold_lookup (recs : List FieldRec) :
    ∀ (d : List (String × FVal)) (k : String),
      (recs.foldl (fun d r => dictInsert d r.key r.val) d).lookup k =
        lastValFrom k recs (d.lookup k) := by
  induction recs with
  | nil => intro d k; simp [lastValFrom]
  | cons r t ih =>
      intro d k
      have step : (List.foldl (fun d r => dictInsert d r.key r.val) d (r :: t)) =
          List.foldl (fun d r => dictInsert d r.key r.val)
            (dictInsert d r.key r.val) t := rfl
      rw [step, ih]
      by_cases h : r.key = k
      · simp [lastValFrom, dictInsert_lookup, h]
      · have h' : ¬k = r.key := fun hh => h hh.symm
        simp [lastValFrom, dictInsert_lookup, h, h']

set_option maxRecDepth 1000000

set_option maxHeartbeats 2000000

/-! ## Claim theorems -/

/-- Claim C2 (code_bug evidence). The spec says `decode_varint` caps at
10 bytes consumed when no terminating byte appears, but on eleven
continuation bytes the code consumes 11 (the `if consumed > 10` check
fires only after an eleventh byte has been folded in); only when the
input itself ends after 10 bytes does it report 10. -/
theorem c2_varint_cap_exceeded :
    decode_varint (List.replicate 11 128) = (0, 11) ∧
    decode_varint (List.replicate 10 128) = (0, 10) := by
  decide

/-- Claim C4, counterexample. The blob `08 01 08 02` encodes field 1
(varint) twice, with values 1 and 2: the scan sees both occurrences,
but the returned field mapping holds a single `field_1_varint` entry
whose value is the later occurrence — the earlier one is overwritten,
contradicting the claim that both are retained. -/
theorem c4_counterexample :
    (scanRecs [8, 1, 8, 2] 0).map (fun r => (r.key, r.val)) =
      [("field_1_varint", FVal.varint 1), ("field_1_varint", FVal.varint 2)] ∧
    (decode_protobuf_blob [8, 1, 8, 2]).lookup "fields" =
      some (.fieldsD [("field_1_varint", FVal.varint 2)]) := by
  decide

/-- Claim C4, amended: the field mapping keeps at most one entry per
key; when several decoded fields share a field number and decoded kind,
the later occurrence overwrites the earlier one, so looking up a key
yields the value of the last record with that key. -/
theorem c4_overwrite_last_occurrence :
    ∀ blob : List Nat,
      ((fieldsOf blob).map Prod.fst).Nodup ∧
      ∀ k : String, (fieldsOf blob).lookup k =
        lastValFrom k (scanRecs blob 0) none := by
  intro blob
  constructor
  · exact dictFold_keys_nodup (scanRecs blob 0) [] (by simp)
  · intro k
    have := dictFold_lookup (scanRecs blob 0) [] k
    simpa [fieldsOf, List.lookup] using this

/-- Claim C9, counterexample. On the empty blob `decode_protobuf_blob`
returns the bare `{}` of line 233: the result contains neither a
`'fields'` nor a `'strings'` key, contradicting the claim for the empty
input. -/
theorem c9_counterexample :
    decode_protobuf_blob [] = [] ∧
    (decode_protobuf_blob []).lookup "fields" = none ∧
    (decode_protobuf_blob []).lookup "strings" = none := by
  decide

/-- Claim C9, amended: for every non-empty byte input the result of
`decode_protobuf_blob` contains a `'fields'` mapping and a `'strings'`
list (the empty blob returns an empty dict instead). -/
theorem c9_nonempty_shape (blob : List Nat) (h : blob ≠ []) :
    (decode_protobuf_blob blob).lookup "fields" =
      some (.fieldsD (fieldsOf blob)) ∧
    (decode_protobuf_blob blob).lookup "strings" =
      some (.strList (extract_strings_from_blob blob 3)) := by
  have he : blob.isEmpty = false := by
    cases blob with
    | nil => exact absurd rfl h
    | cons b t => rfl
  rw [decode_protobuf_blob, he]
  exact ⟨rfl, rfl⟩

/-- Witness for C9's amended theorem at the one-byte blob `[0]`. -/
theorem c9_nonempty_shape_witness :
    (decode_protobuf_blob [0]).lookup "fields" =
      some (.fieldsD (fieldsOf [0])) ∧
    (decode_protobuf_blob [0]).lookup "strings" =
      some (.strList (extract_strings_from_blob [0] 3)) :=
  c9_nonempty_shape [0] (by decide)

/-- Claim C7: `parse_localization_key` classifies
`photos_IncreaseWarmth_1.0.0_intent_title` as `version_based` with
extracted label `"Increase Warmth"` and confidence at least 0.9 (here
in hundredths), and classifies
`CONTROL_CENTER_TOGGLE_RECORDING_INTENT_TITLE` as `constant_case` with
a label containing `"Control Center Toggle Recording"`. -/
theorem c7_key_classification :
    (parse_localization_key "photos_IncreaseWarmth_1.0.0_intent_title").pattern_type
        = some "version_based" ∧
    (parse_localization_key "photos_IncreaseWarmth_1.0.0_intent_title").extracted_name
        = "Increase Warmth" ∧
    (parse_localization_key "photos_IncreaseWarmth_1.0.0_intent_title").confidence
        ≥ 90 ∧
    (parse_localization_key "CONTROL_CENTER_TOGGLE_RECORDING_INTENT_TITLE").pattern_type
        = some "constant_case" ∧
    listContainsSub
      (parse_localization_key "CONTROL_CENTER_TOGGLE_RECORDING_INTENT_TITLE").extracted_name.data
      "Control Center Toggle Recording".data = true := by
  decide

/-- Claim C8: `generate_readable_name` on the sentence with the
embedded key
`browser_searchablewebsiteentity_1.0.0_entity_type_display_representation`
is synthetic with source `cleaned_embedded`; the produced value still
contains `"Optionally"`, still ends with `"by."`, and no longer
contains the raw key substring. -/
theorem c8_embedded_key_repair :
    (generate_readable_name
      "Optionally, what to sort the browser_searchablewebsiteentity_1.0.0_entity_type_display_representation by."
      none).is_synthetic = true ∧
    (generate_readable_name
      "Optionally, what to sort the browser_searchablewebsiteentity_1.0.0_entity_type_display_representation by."
      none).source = "cleaned_embedded" ∧
    listContainsSub
      (generate_readable_name
        "Optionally, what to sort the browser_searchablewebsiteentity_1.0.0_entity_type_display_representation by."
        none).value.data "Optionally".data = true ∧
    endsWithL
      (generate_readable_name
        "Optionally, what to sort the browser_searchablewebsiteentity_1.0.0_entity_type_display_representation by."
        none).value.data "by." = true ∧
    listContainsSub
      (generate_readable_name
        "Optionally, what to sort the browser_searchablewebsiteentity_1.0.0_entity_type_display_representation by."
        none).value.data
      "browser_searchablewebsiteentity_1.0.0_entity_type_display_representation".data
      = false := by
  decide

/-- One-step unfolding of the scan: `scanRecs` satisfies the loop body
equation, with the recursive occurrences expressed through `scanRecs`
again (proved from `scanGo_fuel`). -/
theorem scanRecs_eq (blob : List Nat) (i : Nat) :
    scanRecs blob i =
      if i < blob.length then
        let td := decode_varint (blob.drop i)
        let j := i + td.2
        if td.1 &&& 0x07 = 0 then
          let vs := decode_varint (blob.drop j)
          ⟨fieldKey (td.1 >>> 3) "varint", .varint vs.1, j, j + vs.2⟩ ::
            scanRecs blob (j + vs.2)
        else if td.1 &&& 0x07 = 1 then
          if j + 8 ≤ blob.length then
            ⟨fieldKey (td.1 >>> 3) "64bit", .fixed64 (leNat (pySlice blob j (j + 8))),
              j, j + 8⟩ :: scanRecs blob (j + 8)
          else []
        else if td.1 &&& 0x07 = 2 then
          let ls := decode_varint (blob.drop j)
          let k := j + ls.2
          if k + ls.1 ≤ blob.length then
            ⟨fieldKey (td.1 >>> 3) (wire2Kind (pySlice blob k (k + ls.1))),
              wire2Val (pySlice blob k (k + ls.1)), k, k + ls.1⟩ ::
              scanRecs blob (k + ls.1)
          else []
        else if td.1 &&& 0x07 = 5 then
          if j + 4 ≤ blob.length then
            ⟨fieldKey (td.1 >>> 3) "32bit", .fixed32 (leNat (pySlice blob j (j + 4))),
              j, j + 4⟩ :: scanRecs blob (j + 4)
          else []
        else []
      else [] := by
  by_cases h : i < blob.length
  · have h1 : 1 ≤ (decode_varint (blob.drop i)).2 :=
      decode_varint_pos _ (drop_ne_nil_of_lt h)
    show scanGo blob (blob.length + 1) i = _
    simp only [scanGo, h, if_true]
    split
    · exact congrArg _ (scanGo_fuel blob blob.length (blob.length + 1) _
        (by omega) (by omega))
    · split
      · split
        · exact congrArg _ (scanGo_fuel blob blob.length (blob.length + 1) _
            (by omega) (by omega))
        · rfl
      · split
        · split
          · exact congrArg _ (scanGo_fuel blob blob.length (blob.length + 1) _
              (by omega) (by omega))
          · rfl
        · split
          · split
            · exact congrArg _ (scanGo_fuel blob blob.length (blob.length + 1) _
                (by omega) (by omega))
            · rfl
          · rfl
  · show scanGo blob (blob.length + 1) i = _
    simp [scanGo, h]

/-- Claim C10: the scan loop of `decode_protobuf_blob` terminates —
`decode_varint` consumes at least one byte from non-empty input, and
from any offset the scan either stops or records one field and
continues from a strictly larger offset (never past the end of the
blob), so the remaining byte count strictly decreases. -/
theorem c10_scan_progress :
    (∀ l : List Nat, l = [] ∨ 1 ≤ (decode_varint l).2) ∧
    (∀ (blob : List Nat) (i : Nat),
      scanRecs blob i = [] ∨
      ∃ (r : FieldRec) (i' : Nat), i < i' ∧ i' ≤ blob.length ∧
        scanRecs blob i = r :: scanRecs blob i') := by
  constructor
  · intro l
    cases l with
    | nil => exact Or.inl rfl
    | cons b rest => exact Or.inr (decode_varint_pos _ (by simp))
  · intro blob i
    by_cases h : i < blob.length
    · have h1 : 1 ≤ (decode_varint (blob.drop i)).2 :=
        decode_varint_pos _ (drop_ne_nil_of_lt h)
      have h2 : (decode_varint (blob.drop i)).2 ≤ blob.length - i := by
        have := decode_varint_le (blob.drop i); simpa using this
      have heq := scanRecs_eq blob i
      simp only [h, if_true] at heq
      by_cases hw0 : (decode_varint (blob.drop i)).1 &&& 0x07 = 0
      · simp only [hw0, if_true] at heq
        have h3 : (decode_varint (blob.drop (i + (decode_varint (blob.drop i)).2))).2 ≤
            blob.length - (i + (decode_varint (blob.drop i)).2) := by
          have := decode_varint_le (blob.drop (i + (decode_varint (blob.drop i)).2))
          simpa using this
        exact Or.inr ⟨_, _, by omega, by omega, heq⟩
      · simp only [hw0, if_false] at heq
        by_cases hw1 : (decode_varint (blob.drop i)).1 &&& 0x07 = 1
        · simp only [hw1, if_true] at heq
          by_cases hb8 : i + (decode_varint (blob.drop i)).2 + 8 ≤ blob.length
          · simp only [hb8, if_true] at heq
            exact Or.inr ⟨_, _, by omega, by omega, heq⟩
          · simp only [hb8, if_false] at heq
            exact Or.inl heq
        · simp only [hw1, if_false] at heq
          by_cases hw2 : (decode_varint (blob.drop i)).1 &&& 0x07 = 2
          · simp only [hw2, if_true] at heq
            by_cases hb2 : i + (decode_varint (blob.drop i)).2 +
                (decode_varint (blob.drop (i + (decode_varint (blob.drop i)).2))).2 +
                (decode_varint (blob.drop (i + (decode_varint (blob.drop i)).2))).1 ≤
                blob.length
            · simp only [hb2, if_true] at heq
              exact Or.inr ⟨_, _, by omega, by omega, heq⟩
            · simp only [hb2, if_false] at heq
              exact Or.inl heq
          · simp only [hw2, if_false] at heq
            by_cases hw5 : (decode_varint (blob.drop i)).1 &&& 0x07 = 5
            · simp only [hw5, if_true] at heq
              by_cases hb4 : i + (decode_varint (blob.drop i)).2 + 4 ≤ blob.length
              · simp only [hb4, if_true] at heq
                exact Or.inr ⟨_, _, by omega, by omega, heq⟩
              · simp only [hb4, if_false] at heq
                exact Or.inl heq
            · simp only [hw5, if_false] at heq
              exact Or.inl heq
    · left
      rw [scanRecs_eq, if_neg h]

/-- A 1006-byte blob: field 1 is a wire-type-2 field announcing length
1001 (`0x0A 0xE9 0x07`, then 1001 `'A'` bytes), followed by field 2 as
varint 5 (`0x10 0x05`). Its length-delimited payload exceeds the
1000-byte ceiling the spec attributes to the field scan. -/
def c3blob : List Nat := [0x0A, 0xE9, 0x07] ++ List.replicate 1001 65 ++ [0x10, 0x05]

/-- Claim C3, counterexample. The wire-type-2 field of `c3blob` decodes
a length of 1001 (> 1000), yet the field scan of
`decode_protobuf_blob` does not stop there: it records the
length-delimited field itself and then the following varint field. The
1000-byte ceiling exists only in `extract_strings_from_blob`. -/
theorem c3_counterexample :
    (decode_varint (c3blob.drop 1)).1 = 1001 ∧
    (scanRecs c3blob 0).map FieldRec.key =
      ["field_1_string", "field_2_varint"] := by
  decide

/-- Claim C3, amended: the field scan of `decode_protobuf_blob` imposes
no 1000-byte ceiling on a wire-type-2 length. After decoding the tag
`(tag, tsz)` and the length `(len, lsz)`, it stops (returning the
fields decoded so far) exactly when `offset + len` exceeds the blob
length, and otherwise records the field — whatever the size of `len` —
and continues. -/
theorem c3_wire2_no_length_ceiling (blob : List Nat) (i tag tsz len lsz : Nat)
    (hi : i < blob.length)
    (htag : decode_varint (blob.drop i) = (tag, tsz))
    (hwt : tag &&& 0x07 = 2)
    (hlen : decode_varint (blob.drop (i + tsz)) = (len, lsz)) :
    (i + tsz + lsz + len ≤ blob.length →
        scanRecs blob i =
          ⟨fieldKey (tag >>> 3)
              (wire2Kind (pySlice blob (i + tsz + lsz) (i + tsz + lsz + len))),
            wire2Val (pySlice blob (i + tsz + lsz) (i + tsz + lsz + len)),
            i + tsz + lsz, i + tsz + lsz + len⟩ ::
            scanRecs blob (i + tsz + lsz + len)) ∧
    (blob.length < i + tsz + lsz + len → scanRecs blob i = []) := by
  have heq := scanRecs_eq blob i
  rw [if_pos hi] at heq
  simp only [htag, hlen] at heq
  have h0 : ¬(tag &&& 0x07 = 0) := by omega
  have h1 : ¬(tag &&& 0x07 = 1) := by omega
  rw [if_neg h0, if_neg h1, if_pos hwt] at heq
  constructor
  · intro hle
    rw [if_pos hle] at heq
    exact heq
  · intro hgt
    rw [if_neg (by omega)] at heq
    exact heq

/-- Witness for C3's amended theorem on `c3blob`: the oversized
length-delimited field is decoded and the scan continues at offset
1004. -/
theorem c3_wire2_no_length_ceiling_witness :
    scanRecs c3blob 0 =
      ⟨fieldKey 1 (wire2Kind (pySlice c3blob 3 1004)),
        wire2Val (pySlice c3blob 3 1004), 3, 1004⟩ :: scanRecs c3blob 1004 :=
  (c3_wire2_no_length_ceiling c3blob 0 10 1 1001 2 (by decide) (by decide)
    (by decide) (by decide)).1 (by decide)

/-- What each recorded field's stored value is, as a function of the
bytes in its `[start, stop)` interval: a varint field stores the value
decoded from exactly those bytes, a 64/32-bit field their little-endian
bit pattern, and a length-delimited field the string/bytes value
computed from exactly that payload slice. -/
def recFromSlice (r : FieldRec) (blob : List Nat) : Prop :=
  r.val = FVal.varint (decode_varint (pySlice blob r.start r.stop)).1 ∨
  r.val = FVal.fixed64 (leNat (pySlice blob r.start r.stop)) ∨
  r.val = wire2Val (pySlice blob r.start r.stop) ∨
  r.val = FVal.fixed32 (leNat (pySlice blob r.start r.stop))

theorem scanGo_mem_bounds (blob : List Nat) :
    ∀ fuel i r, r ∈ scanGo blob fuel i →
      r.start ≤ r.stop ∧ r.stop ≤ blob.length ∧ recFromSlice r blob := by
  intro fuel
  induction fuel with
  | zero => intro i r hr; simp [scanGo] at hr
  | succ f ih =>
      intro i r hr
      by_cases h : i < blob.length
      · have h2 : (decode_varint (blob.drop i)).2 ≤ blob.length - i := by
          have := decode_varint_le (blob.drop i); simpa using this
        simp only [scanGo, h, if_true] at hr
        split at hr
        · rcases List.mem_cons.mp hr with hhead | htail
          · subst hhead
            refine ⟨Nat.le_add_right _ _, ?_, ?_⟩
            · have h3 : (decode_varint (blob.drop (i + (decode_varint (blob.drop i)).2))).2 ≤
                  blob.length - (i + (decode_varint (blob.drop i)).2) := by
                have := decode_varint_le
                  (blob.drop (i + (decode_varint (blob.drop i)).2))
                simpa using this
              show i + (decode_varint (blob.drop i)).2 +
                  (decode_varint (blob.drop (i + (decode_varint (blob.drop i)).2))).2 ≤
                  blob.length
              omega
            · left
              show FVal.varint _ = FVal.varint _
              have : pySlice blob (i + (decode_varint (blob.drop i)).2)
                  (i + (decode_varint (blob.drop i)).2 +
                    (decode_varint (blob.drop (i + (decode_varint (blob.drop i)).2))).2) =
                  (blob.drop (i + (decode_varint (blob.drop i)).2)).take
                    (decode_varint (blob.drop (i + (decode_varint (blob.drop i)).2))).2 := by
                simp [pySlice]
              rw [this, decode_varint_take]
          · exact ih _ r htail
        · split at hr
          · split at hr
            · rcases List.mem_cons.mp hr with hhead | htail
              · subst hhead
                refine ⟨Nat.le_add_right _ _, by assumption, Or.inr (Or.inl rfl)⟩
              · exact ih _ r htail
            · simp at hr
          · split at hr
            · split at hr
              · rcases List.mem_cons.mp hr with hhead | htail
                · subst hhead
                  refine ⟨Nat.le_add_right _ _, by assumption,
                    Or.inr (Or.inr (Or.inl rfl))⟩
                · exact ih _ r htail
              · simp at hr
            · split at hr
              · split at hr
                · rcases List.mem_cons.mp hr with hhead | htail
                  · subst hhead
                    refine ⟨Nat.le_add_right _ _, by assumption,
                      Or.inr (Or.inr (Or.inr rfl))⟩
                  · exact ih _ r htail
                · simp at hr
              · simp at hr
      · simp [scanGo, h] at hr

/-- Claim C1: truncation safety of the field scan. For every blob and
every truncation offset `cut`, each field decoded from the truncated
blob draws its bytes from an interval that ends inside the truncated
prefix (so the scan never reads outside the supplied bytes — every
slice it takes lies inside `[0, cut)` and inside the original blob),
and its stored value is computed exactly from that slice of the
surviving prefix — the scan returns the fields decodable from the
prefix and nothing else. -/
theorem c1_truncation_safety (blob : List Nat) (cut : Nat) (r : FieldRec)
    (hr : r ∈ scanRecs (blob.take cut) 0) :
    r.start ≤ r.stop ∧ r.stop ≤ cut ∧ r.stop ≤ blob.length ∧
      recFromSlice r (blob.take cut) := by
  have h := scanGo_mem_bounds (blob.take cut) _ 0 r hr
  have hlen : (blob.take cut).length = min cut blob.length := by
    simp [List.length_take]
  have hstop := h.2.1
  rw [hlen] at hstop
  exact ⟨h.1, by omega, by omega, h.2.2⟩

/-- Witness for C1 at the blob `08 01 08 02` truncated at offset 2: the
single field decoded from the two surviving bytes lies inside them and
its value is the varint decoded from its slice. -/
theorem c1_truncation_safety_witness :
    (⟨"field_1_varint", FVal.varint 1, 1, 2⟩ : FieldRec).start ≤
        (⟨"field_1_varint", FVal.varint 1, 1, 2⟩ : FieldRec).stop ∧
    (⟨"field_1_varint", FVal.varint 1, 1, 2⟩ : FieldRec).stop ≤ 2 ∧
    (⟨"field_1_varint", FVal.varint 1, 1, 2⟩ : FieldRec).stop ≤
        ([8, 1, 8, 2] : List Nat).length ∧
    recFromSlice ⟨"field_1_varint", FVal.varint 1, 1, 2⟩
      (([8, 1, 8, 2] : List Nat).take 2) :=
  c1_truncation_safety [8, 1, 8, 2] 2 ⟨"field_1_varint", FVal.varint 1, 1, 2⟩
    (by decide)

/-! ## Support lemmas for the sanitizer claims: every pipeline stage is
length-non-increasing. -/

theorem stripLeadGo_length (cls : Char → Bool) :
    ∀ fuel s, (stripLeadGo cls fuel s).length ≤ s.length := by
  intro fuel
  induction fuel with
  | zero => intro s; simp [stripLeadGo]
  | succ f ih =>
      intro s
      cases s with
      | nil => simp [stripLeadGo]
      | cons c rest =>
          by_cases h : cls c
          · have h1 := ih (pyStrip rest)
            have h2 := pyStrip_length rest
            simp only [stripLeadGo, h, if_true, List.length_cons]
            omega
          · simp [stripLeadGo, h]

theorem stripTrailGo_length :
    ∀ fuel s, (stripTrailGo fuel s).length ≤ s.length := by
  intro fuel
  induction fuel with
  | zero => intro s; simp [stripTrailGo]
  | succ f ih =>
      intro s
      cases hlast : s.getLast? with
      | none => simp [stripTrailGo, hlast]
      | some c =>
          by_cases h : isArtifact c || isQuoteChar c
          · have h1 := ih (pyStrip s.dropLast)
            have h2 := pyStrip_length s.dropLast
            have h3 : s.dropLast.length = s.length - 1 := by simp
            simp only [stripTrailGo, hlast, h, if_true]
            omega
          · simp [stripTrailGo, hlast, h]

theorem stripLeadDigit_length (s : List Char) :
    (stripLeadDigit s).length ≤ s.length := by
  cases s with
  | nil => simp [stripLeadDigit]
  | cons c0 t =>
      cases t with
      | nil => simp [stripLeadDigit]
      | cons c1 t' =>
          simp only [stripLeadDigit]
          split
          · split
            · have h1 := pyStrip_length ((c0 :: c1 :: t').drop 1)
              simp only [List.length_drop, List.length_cons] at h1
              simp only [List.length_cons]
              omega
            · exact le_refl _
          · exact le_refl _

theorem stripLeadUpper_length (s : List Char) :
    (stripLeadUpper s).length ≤ s.length := by
  cases s with
  | nil => simp [stripLeadUpper]
  | cons c0 t =>
      cases t with
      | nil => simp [stripLeadUpper]
      | cons c1 t' =>
          simp only [stripLeadUpper]
          split
          · split
            · have h1 := pyStrip_length ((c0 :: c1 :: t').drop 1)
              simp only [List.length_drop, List.length_cons] at h1
              simp only [List.length_cons]
              omega
            · exact le_refl _
          · exact le_refl _

theorem stripTrailQuoteDigits_length (s : List Char) :
    (stripTrailQuoteDigits s).length ≤ s.length := by
  simp only [stripTrailQuoteDigits]
  split
  · exact le_refl _
  · split
    next q rest hdrop =>
      have hlen := congrArg List.length hdrop
      simp only [List.length_drop, List.length_cons, List.length_reverse] at hlen
      split
      · simp only [List.length_reverse]
        omega
      · exact le_refl _
    next => exact le_refl _

theorem stripTrailQuotePlus_length (s : List Char) :
    (stripTrailQuotePlus s).length ≤ s.length := by
  simp only [stripTrailQuotePlus]
  split
  · exact le_refl _
  · split
    next q rest hdrop =>
      have hlen := congrArg List.length hdrop
      simp only [List.length_drop, List.length_cons, List.length_reverse] at hlen
      split
      · simp only [List.length_reverse]
        omega
      · exact le_refl _
    next => exact le_refl _

theorem stripTrailDigitUpper_length (s : List Char) :
    (stripTrailDigitUpper s).length ≤ s.length := by
  simp only [stripTrailDigitUpper]
  split
  next c rest hrev =>
    have hlen := congrArg List.length hrev
    simp only [List.length_reverse, List.length_cons] at hlen
    split
    · split
      · exact le_refl _
      · simp only [List.length_reverse, List.length_drop]
        omega
    · exact le_refl _
  next => exact le_refl _

theorem dropTrailDigits_length (s : List Char) :
    (dropTrailDigits s).length ≤ s.length := by
  have := dropWhile_length_le isAsciiDigit s.reverse
  simp only [dropTrailDigits, List.length_reverse]
  simpa using this

theorem bundleDigitStage_length (s : List Char) :
    (bundleDigitStage s).length ≤ s.length := by
  simp only [bundleDigitStage]
  split
  · have h1 := stripTrailDigitUpper_length s
    have h2 := pyStrip_length (stripTrailDigitUpper s)
    split
    · have h3 := dropTrailDigits_length (pyStrip (stripTrailDigitUpper s))
      have h4 := pyStrip_length (dropTrailDigits (pyStrip (stripTrailDigitUpper s)))
      omega
    · omega
  · exact le_refl _

theorem takeUntilSub_length (s d : List Char) :
    (takeUntilSub s d).length ≤ s.length := by
  simp only [takeUntilSub]
  split
  · simpa using List.length_take_le _ _
  · exact le_refl _

theorem delimStep_length (s d s' : List Char) (h : delimStep s d = some s') :
    s'.length ≤ s.length := by
  simp only [delimStep] at h
  split at h
  · split at h
    · split at h
      · cases h
        exact le_trans (pyStrip_length _) (takeUntilSub_length s d)
      · cases h
    · split at h
      · split at h
        · cases h
          exact le_trans (pyStrip_length _) (takeUntilSub_length s d)
        · cases h
      · cases h
  · cases h

theorem delimLoopGo_length :
    ∀ (ds : List (List Char)) (s : List Char), (delimLoop.go ds s).length ≤ s.length := by
  intro ds
  induction ds with
  | nil => intro s; simp [delimLoop.go]
  | cons d t ih =>
      intro s
      simp only [delimLoop.go]
      cases hstep : delimStep s d with
      | some s' => exact delimStep_length s d s' hstep
      | none => exact ih s

theorem delimLoop_length (s : List Char) : (delimLoop s).length ≤ s.length :=
  delimLoopGo_length sanitizerDelims s

/-- The final length gate of the sanitizer (lines 130-134). -/
theorem sanitizeFinalGate (x t : List Char)
    (h : (if x.length < 3 then none
          else if x.isEmpty then none else some x) = some t) :
    3 ≤ t.length ∧ t.length ≤ x.length := by
  split at h
  · cases h
  next h3 =>
    split at h
    · cases h
    · cases h
      exact ⟨by omega, le_refl _⟩

/-- Shape of a successful sanitization: the surviving string has at
least 3 characters and is never longer than the input. -/
theorem sanitizeList_some (s0 t : List Char) (h : sanitizeList s0 = some t) :
    3 ≤ t.length ∧ t.length ≤ s0.length := by
  simp only [sanitizeList] at h
  split at h
  · cases h
  next hne =>
    split at h
    · cases h
    next hsusp =>
      split at h
      · cases h
      next hhalf =>
        obtain ⟨h3, hle⟩ := sanitizeFinalGate _ _ h
        refine ⟨h3, le_trans hle ?_⟩
        refine le_trans (delimLoop_length _) ?_
        refine le_trans (bundleDigitStage_length _) ?_
        refine le_trans (pyStrip_length _) ?_
        refine le_trans (stripTrailQuotePlus_length _) ?_
        refine le_trans (pyStrip_length _) ?_
        refine le_trans (stripTrailQuoteDigits_length _) ?_
        refine le_trans (stripTrailGo_length _ _) ?_
        refine le_trans (stripLeadUpper_length _) ?_
        refine le_trans (stripLeadGo_length _ _ _) ?_
        refine le_trans (stripLeadGo_length _ _ _) ?_
        refine le_trans (stripLeadDigit_length _) ?_
        exact pyStrip_length _

/-- Claim C5, counterexample. Sanitizing `"ab--*c d*e"` succeeds with
`"ab--"` (the `*` split keeps `"ab--"`, whose trailing dashes were
stripped *before* the split ran), but re-sanitizing `"ab--"` strips the
dashes, leaving `"ab"`, which fails the length floor and is rejected —
so `sanitize(sanitize(s))` differs from `sanitize(s)` on a non-rejected
input. -/
theorem c5_counterexample :
    sanitize_extracted_string "ab--*c d*e" = some "ab--" ∧
    sanitize_extracted_string "ab--" = none := by
  decide

/-- Claim C5, amended: sanitize is not idempotent — a second application
may rewrite or even reject a non-rejected output. What does hold is
that sanitization is contractive: a non-rejected output is never longer
than its input, so iterated sanitization cannot grow and terminates. -/
theorem c5_sanitize_contractive (s t : String)
    (h : sanitize_extracted_string s = some t) : t.length ≤ s.length := by
  simp only [sanitize_extracted_string, Option.map_eq_some'] at h
  obtain ⟨l, hl, hmk⟩ := h
  have := (sanitizeList_some s.data l hl).2
  have hlen : t.length = l.length := by rw [← hmk]; rfl
  have hslen : s.length = s.data.length := rfl
  omega

/-- Witness for C5's amended theorem at the counterexample input. -/
theorem c5_sanitize_contractive_witness :
    ("ab--" : String).length ≤ ("ab--*c d*e" : String).length :=
  c5_sanitize_contractive "ab--*c d*e" "ab--" (by decide)

/-- Claim C6: whenever `sanitize_extracted_string` does not reject, the
returned string is non-empty and has length at least 3 (the final
length gate of lines 130-134). -/
theorem c6_length_floor (s t : String)
    (h : sanitize_extracted_string s = some t) :
    3 ≤ t.length ∧ t ≠ "" := by
  simp only [sanitize_extracted_string, Option.map_eq_some'] at h
  obtain ⟨l, hl, hmk⟩ := h
  have h3 := (sanitizeList_some s.data l hl).1
  have hlen : t.length = l.length := by rw [← hmk]; rfl
  constructor
  · omega
  · intro hempty
    rw [hempty] at hlen
    simp [String.length] at hlen
    omega

/-- Witness for C6 at the input `"abc"`, which sanitizes to itself. -/
theorem c6_length_floor_witness :
    3 ≤ ("abc" : String).length ∧ ("abc" : String) ≠ "" :=
  c6_length_floor "abc" "abc" (by decide)

end Spec2Proof
